import Mathlib

/-!
Shallow embedding of `cloudtrail2IAM.py` (repository carlospolop/Cloudtrail2IAM).

The Python program lists CloudTrail log objects in an S3 bucket, downloads and
gunzips each `.json.gz` object, parses it as JSON, extracts per-record
`(identity, action)` pairs, normalizes STS assumed-role ARNs to IAM role ARNs,
and aggregates the pairs into the global dict `ALL_ACTIONS : arn -> set of
"service - eventName"` strings, finally filtering and printing it.

The external collaborators (boto3 S3 client, tempfile, tqdm, argparse) are not
modelled; objects are represented by their key together with the outcome of
fetching and parsing them.  Python strings are modelled as Lean `String`
(lists of unicode scalar values, matching Python's code-point semantics for
the operations used here); Python's `str.replace`, `str.split`, `str.join`,
`in`, `startswith`, `lower` are re-implemented below on `List Char` with
Python's exact semantics for the non-degenerate inputs the program uses
(all patterns the source passes to `replace` are non-empty literals).
-/

/-- Python `b.startswith(a)`: is `pre` a prefix of `s`. -/
def pyStartsWith (s pre : String) : Bool :=
  pre.data.isPrefixOf s.data

/-- Substring occurrence test on character lists (Python `pat in s`).
`subIn [] l = true` for every `l`, matching Python's empty-string rule. -/
def subIn (pat : List Char) : List Char → Bool
  | [] => pat.isEmpty
  | c :: rest => pat.isPrefixOf (c :: rest) || subIn pat rest

/-- Python `pat in s` for strings. -/
def pyContains (s pat : String) : Bool :=
  subIn pat.data s.data

/-- Python `s.endswith(suf)`. -/
def pyEndsWith (s suf : String) : Bool :=
  suf.data.reverse.isPrefixOf s.data.reverse

/-- Python `s.lower()` (ASCII; CloudTrail object keys are ASCII). -/
def pyLower (s : String) : String :=
  ⟨s.data.map Char.toLower⟩

/-- Worker for `pyReplace`: scan left to right, replacing each non-overlapping
occurrence of `pat` by `rep`; `skip` counts characters of a just-matched
occurrence that remain to be consumed.  Structural recursion on the input. -/
def pyReplaceAux (pat rep : List Char) : Nat → List Char → List Char
  | _, [] => []
  | n + 1, _ :: rest => pyReplaceAux pat rep n rest
  | 0, c :: rest =>
    if !pat.isEmpty && pat.isPrefixOf (c :: rest) then
      rep ++ pyReplaceAux pat rep (pat.length - 1) rest
    else
      c :: pyReplaceAux pat rep 0 rest

/-- Python `s.replace(pat, rep)`: every non-overlapping occurrence, scanning
left to right.  (For the degenerate empty `pat`, which the source never
passes, this is the identity.) -/
def pyReplace (s pat rep : String) : String :=
  ⟨pyReplaceAux pat.data rep.data 0 s.data⟩

/-- Replace only the first occurrence of `pat` (used to formalize the claim
wording "the assumed-role marker replaced by role"). -/
def replaceFirstAux (pat rep : List Char) : List Char → List Char
  | [] => []
  | c :: rest =>
    if !pat.isEmpty && pat.isPrefixOf (c :: rest) then
      rep ++ (c :: rest).drop pat.length
    else
      c :: replaceFirstAux pat rep rest

/-- Replace only the first occurrence of `pat` in `s` by `rep`. -/
def replaceFirst (s pat rep : String) : String :=
  ⟨replaceFirstAux pat.data rep.data s.data⟩

/-- Python `s.split(sep)` for a one-character separator, on character lists:
always returns at least one (possibly empty) segment. -/
def splitOnChar (c : Char) : List Char → List (List Char)
  | [] => [[]]
  | x :: xs =>
    match splitOnChar c xs with
    | [] => [[]]
    | h :: t => if x = c then [] :: h :: t else (x :: h) :: t

/-- Python `s.split(c)` for a one-character separator `c`. -/
def pySplit (s : String) (c : Char) : List String :=
  (splitOnChar c s.data).map String.mk

/-- Concatenate with separator (worker for `pyJoin`). -/
def joinSep (sep : List Char) : List (List Char) → List Char
  | [] => []
  | [x] => x
  | x :: y :: t => x ++ sep ++ joinSep sep (y :: t)

/-- Python `sep.join(parts)`. -/
def pyJoin (sep : String) (parts : List String) : String :=
  ⟨joinSep sep.data (parts.map String.data)⟩

/-- Source lines 23-30 (`fix_arn`): if the ARN starts with `arn:aws:sts::`,
replace (all occurrences of) `arn:aws:sts::` by `arn:aws:iam::` and
`assumed-role` by `role`, then keep only the first two `/`-separated
segments; otherwise return the ARN unchanged. -/
def fix_arn (arn : String) : String :=
  if pyStartsWith arn "arn:aws:sts::" then
    pyJoin "/"
      (((pySplit (pyReplace (pyReplace arn "arn:aws:sts::" "arn:aws:iam::")
        "assumed-role" "role") '/')).take 2)
  else arn

/-- Formalization of claim C2's wording for the positive branch: only the
leading prefix occurrence is rewritten, and only the first (the marker)
occurrence of `assumed-role` is rewritten; then the path is truncated to the
first two `/`-separated segments. -/
def fix_arn_claim (arn : String) : String :=
  if pyStartsWith arn "arn:aws:sts::" then
    pyJoin "/"
      (((pySplit (replaceFirst ("arn:aws:iam::" ++ arn.drop "arn:aws:sts::".length)
        "assumed-role" "role") '/')).take 2)
  else arn

/-- Source line 67 guard in `process_log_object`: the object is skipped (no
download attempted) iff `".json.gz" not in log_key or "digest" in
log_key.lower()`. -/
def skipKey (key : String) : Bool :=
  !(pyContains key ".json.gz") || pyContains (pyLower key) "digest"

/-- Formalization of claim C3's wording: skip iff the key does not *end* in
`.json.gz`, or the key indicates a digest file. -/
def skipClaim (key : String) : Bool :=
  !(pyEndsWith key ".json.gz") || pyContains (pyLower key) "digest"

/-- Parsed JSON values, the result type of Python's `json.load` (dicts are
association lists with distinct keys, later duplicate keys having been
collapsed by the parser; numbers irrelevant to this program are integers). -/
inductive Json where
  | null
  | bool (b : Bool)
  | num (n : Int)
  | str (s : String)
  | arr (elems : List Json)
  | obj (fields : List (String × Json))

/-- Python exceptions that `extract_actions_from_log_file` can raise, plus
`parseError` for `json.JSONDecodeError` raised by `json.load`. -/
inductive PyErr where
  | keyError
  | typeError
  | attributeError
  | parseError
deriving DecidableEq

/-- Python subscription `j[k]` with a string key: dict lookup (`KeyError` when
absent); strings and lists reject string indices with `TypeError`, as do the
remaining values. -/
def pyIndex (j : Json) (k : String) : Except PyErr Json :=
  match j with
  | .obj fields =>
    match fields.find? (fun kv => kv.1 = k) with
    | some kv => .ok kv.2
    | none => .error .keyError
  | _ => .error .typeError

/-- Does a JSON value equal a given Python string (used by `in` on lists)? -/
def jsonIsStr (j : Json) (s : String) : Bool :=
  match j with
  | .str t => t = s
  | _ => false

/-- Python `k in j` for a string `k`: key membership for dicts, substring test
for strings, element equality for lists, `TypeError` otherwise. -/
def pyInTest (k : String) (j : Json) : Except PyErr Bool :=
  match j with
  | .obj fields => .ok (fields.any (fun kv => kv.1 = k))
  | .str s => .ok (pyContains s k)
  | .arr xs => .ok (xs.any (fun x => jsonIsStr x k))
  | _ => .error .typeError

/-- Source line 40, `data.get('Records', [])`: dict lookup with default `[]`;
`.get` on a non-dict raises `AttributeError`. -/
def pyGetRecords (j : Json) : Except PyErr Json :=
  match j with
  | .obj fields =>
    match fields.find? (fun kv => kv.1 = "Records") with
    | some kv => .ok kv.2
    | none => .ok (.arr [])
  | _ => .error .attributeError

/-- Python `for x in j`: lists yield their elements, strings their
one-character substrings, dicts their keys; other values raise `TypeError`. -/
def pyIter (j : Json) : Except PyErr (List Json) :=
  match j with
  | .arr xs => .ok xs
  | .str s => .ok (s.data.map (fun c => .str ⟨[c]⟩))
  | .obj fields => .ok (fields.map (fun kv => .str kv.1))
  | _ => .error .typeError

/-- Source line 42 applies `fix_arn` to the looked-up arn value: a non-string
value makes `arn.startswith(...)` raise `AttributeError`. -/
def fix_arnJson (j : Json) : Except PyErr String :=
  match j with
  | .str s => .ok (fix_arn s)
  | _ => .error .attributeError

/-- Source line 43, `record['eventSource'].split(".")[0] + " - " +
record['eventName']`, with Python's evaluation order and dynamic-type
errors. -/
def pyActionOf (r : Json) : Except PyErr String :=
  match pyIndex r "eventSource" with
  | .error e => .error e
  | .ok es =>
    match es with
    | .str s =>
      match pyIndex r "eventName" with
      | .error e => .error e
      | .ok en =>
        match en with
        | .str e2 => .ok ((pySplit s '.').headD "" ++ " - " ++ e2)
        | _ => .error .typeError
    | _ => .error .attributeError

/-- The aggregation index `ALL_ACTIONS : Dict[str, set]`, modelled as an
association list in dict insertion order; each Python set is modelled by the
duplicate-free list of its elements in insertion order (set contents are what
the claims compare; an order-independence theorem is proved below). -/
abbrev Idx := List (String × List String)

/-- Python `s.add(action)` on a set modelled as a duplicate-free list. -/
def addAction (s : List String) (act : String) : List String :=
  if act ∈ s then s else s ++ [act]

/-- Source lines 44-48: `if not ALL_ACTIONS.get(arn): ALL_ACTIONS[arn] =
set([action]) else: ALL_ACTIONS[arn].add(action)`.  Note the Python guard is
a *falsiness* test: an absent key or an (unreachable) empty stored set both
lead to the singleton assignment, keeping the key's dict position; a new key
is appended at the end. -/
def merge (st : Idx) (arn act : String) : Idx :=
  match st with
  | [] => [(arn, [act])]
  | kv :: rest =>
    if kv.1 = arn then
      if kv.2.isEmpty then (kv.1, [act]) :: rest
      else (kv.1, addAction kv.2 act) :: rest
    else kv :: merge rest arn act

/-- Dict lookup in the index (`ALL_ACTIONS.get(arn)`). -/
def keyLookup (st : Idx) (a : String) : Option (List String) :=
  match st with
  | [] => none
  | kv :: rest => if kv.1 = a then some kv.2 else keyLookup rest a

/-- One iteration of the record loop, source lines 41-48: guard on
`'userIdentity' in record and 'arn' in record['userIdentity']`, normalize the
arn, build the action label, and merge; any Python exception is returned with
the state at the moment it was raised. -/
def processRecord (st : Idx) (r : Json) : Idx × Option PyErr :=
  match pyInTest "userIdentity" r with
  | .error e => (st, some e)
  | .ok false => (st, none)
  | .ok true =>
    match pyIndex r "userIdentity" with
    | .error e => (st, some e)
    | .ok ui =>
      match pyInTest "arn" ui with
      | .error e => (st, some e)
      | .ok false => (st, none)
      | .ok true =>
        match pyIndex ui "arn" with
        | .error e => (st, some e)
        | .ok arnVal =>
          match fix_arnJson arnVal with
          | .error e => (st, some e)
          | .ok arn =>
            match pyActionOf r with
            | .error e => (st, some e)
            | .ok act => (merge st arn act, none)

/-- The record loop of source line 40: process records in order, aborting at
the first raised exception (later records of the same document are not
reached). -/
def processRecords (st : Idx) : List Json → Idx × Option PyErr
  | [] => (st, none)
  | r :: rest =>
    match processRecord st r with
    | (st', none) => processRecords st' rest
    | (st', some e) => (st', some e)

/-- One decompressed object body: either not decodable (gzip/`json.load`
failure, modelled as `ParseError`) or a parsed JSON value. -/
inductive Doc where
  | malformed
  | json (j : Json)

/-- Source lines 33-48, `extract_actions_from_log_file`, as a function of the
document and the current index: `json.load` failure raises `parseError`;
otherwise `data.get('Records', [])` is iterated. -/
def extract_actions (st : Idx) (d : Doc) : Idx × Option PyErr :=
  match d with
  | .malformed => (st, some .parseError)
  | .json j =>
    match pyGetRecords j with
    | .error e => (st, some e)
    | .ok recs =>
      match pyIter recs with
      | .error e => (st, some e)
      | .ok rs => processRecords st rs

/-- One listed S3 object: its key and, for eligible keys, the outcome of
downloading it (`none` models a `FetchError` from `download_file`). -/
structure S3Obj where
  key : String
  content : Option Doc

/-- Per-object failures surfaced by the pipeline. -/
inductive PipeErr where
  | fetchError
  | pyErr (e : PyErr)
deriving DecidableEq

/-- Source lines 64-72, `process_log_object`: skip ineligible keys before any
download; otherwise download (possible `FetchError`) and extract. -/
def process_log_object (st : Idx) (o : S3Obj) : Idx × Option PipeErr :=
  if skipKey o.key then (st, none)
  else
    match o.content with
    | none => (st, some .fetchError)
    | some d =>
      match extract_actions st d with
      | (st', none) => (st', none)
      | (st', some e) => (st', some (.pyErr e))

/-- All submitted worker tasks run to completion (the `ThreadPoolExecutor`
context manager waits for every future even when `main` raises), so the index
receives every object's contribution; per-object errors are collected in
completion order, modelled here by list order. -/
def runAll (objs : List S3Obj) : Idx × List PipeErr :=
  objs.foldl
    (fun acc o =>
      match process_log_object acc.1 o with
      | (st', none) => (st', acc.2)
      | (st', some e) => (st', acc.2 ++ [e]))
    ([], [])

/-- Source lines 92-95: `for future in as_completed(futures): future.result()`
re-raises the first per-object exception inside `main`; only if no object
failed does `main` go on to use `ALL_ACTIONS`. -/
def collectResults (objs : List S3Obj) : Except PipeErr Idx :=
  match runAll objs with
  | (st, []) => .ok st
  | (_, e :: _) => .error e

/-- Lexicographic comparison of character lists by code point, Python's
string order. -/
def charLe : List Char → List Char → Bool
  | [], _ => true
  | _ :: _, [] => false
  | a :: as, b :: bs => if a < b then true else if b < a then false else charLe as bs

/-- Python `a <= b` on strings (code-point lexicographic). -/
def strLe (a b : String) : Bool :=
  charLe a.data b.data

/-- Python `sorted(actions)` (source line 107): the ascending enumeration of
the set's elements.  Insertion sort is extensionally the unique sorted
enumeration, hence a faithful model of CPython's timsort on distinct keys. -/
def sortL (l : List String) : List String :=
  List.insertionSort (fun a b => strLe a b = true) l

/-- Source lines 98-109: the filter-and-render stage of `main`.  With a truthy
`--filter-name`, `ALL_ACTIONS` is rebound to the sub-dict of entries whose arn
contains the filter as a substring (an absent flag is `None` and the empty
string is falsy, so both leave the dict untouched); each surviving entry is
rendered with its action set sorted. -/
def report (idx : Idx) (flt : Option String) : List (String × List String) :=
  let idx2 :=
    match flt with
    | none => idx
    | some t => if t = "" then idx else idx.filter (fun kv => pyContains kv.1 t)
  idx2.map (fun kv => (kv.1, sortL kv.2))

/-- Fold a batch of (identity, label) pairs into the index: the contents of
`ALL_ACTIONS` after the merges of one interleaving have run. -/
def applyAll (st : Idx) (l : List (String × String)) : Idx :=
  l.foldl (fun st p => merge st p.1 p.2) st

/-- Equality of two optional sets up to element order (Python sets compare by
contents, not by our modelling enumeration). -/
def optPerm : Option (List String) → Option (List String) → Prop
  | none, none => True
  | some s, some t => s.Perm t
  | _, _ => False

/-- Two indexes with the same identity-to-set-of-labels mapping. -/
def lookPerm (st₁ st₂ : Idx) : Prop :=
  ∀ a, optPerm (keyLookup st₁ a) (keyLookup st₂ a)

/-- The `userIdentity.arn` string of a record, when the subscriptions of
source line 42 would succeed on it. -/
def arnOf (r : Json) : Option String :=
  match pyIndex r "userIdentity" with
  | .error _ => none
  | .ok ui =>
    match pyIndex ui "arn" with
    | .ok (.str a) => some a
    | _ => none

/-- The action label of a record, when source line 43 would succeed on it. -/
def actOf (r : Json) : Option String :=
  match pyActionOf r with
  | .ok l => some l
  | .error _ => none

/-- An index entry is justified by a processed record whose `userIdentity.arn`
is present and normalizes to the entry's key. -/
def EntryJustified (seen : List Json) (k : String) : Prop :=
  ∃ r ∈ seen, (arnOf r).map fix_arn = some k

/-- Claim C8's stronger notion: the justifying record's `userIdentity.arn`
must moreover be non-empty. -/
def EntryJustifiedNE (seen : List Json) (k : String) : Prop :=
  ∃ r ∈ seen, ((arnOf r).filter (fun a => a != "")).map fix_arn = some k

/-- Index invariant from the spec's data-model section: every entry is
justified by a seen record and no stored action label is empty. -/
def IdxOK (st : Idx) (seen : List Json) : Prop :=
  ∀ kv ∈ st, EntryJustified seen kv.1 ∧ ∀ l ∈ kv.2, l ≠ ""

/-- Claim C8's stated invariant (justifying arn also non-empty). -/
def IdxOKne (st : Idx) (seen : List Json) : Prop :=
  ∀ kv ∈ st, EntryJustifiedNE seen kv.1 ∧ ∀ l ∈ kv.2, l ≠ ""

/-- A CloudTrail record for IAM user alice performing `s3 - GetObject`
(spec §8's extraction example). -/
def recAlice : Json :=
  .obj [("eventSource", .str "s3.amazonaws.com"), ("eventName", .str "GetObject"),
    ("userIdentity", .obj [("arn", .str "arn:aws:iam::1:user/alice")])]

/-- A record whose `userIdentity.arn` is present but empty. -/
def recEmptyArn : Json :=
  .obj [("eventSource", .str "s3.amazonaws.com"), ("eventName", .str "GetObject"),
    ("userIdentity", .obj [("arn", .str "")])]

/-- A record with an arn but no `eventSource` key. -/
def recNoSource : Json :=
  .obj [("eventName", .str "GetObject"),
    ("userIdentity", .obj [("arn", .str "arn:aws:iam::1:user/alice")])]

/-- A single-record document for alice. -/
def docAlice : Json :=
  .obj [("Records", .arr [recAlice])]

/-- `charLe` is total. -/
theorem charLe_total : ∀ (a b : List Char), charLe a b = true ∨ charLe b a = true := by
  intro a
  induction a with
  | nil => intro b; left; rfl
  | cons x as ih =>
    intro b
    cases b with
    | nil => right; rfl
    | cons y bs =>
      rcases lt_trichotomy x y with h | h | h
      · left; simp [charLe, h]
      · subst h
        rcases ih bs with h' | h'
        · left; simp [charLe, lt_irrefl, h']
        · right; simp [charLe, lt_irrefl, h']
      · right; simp [charLe, h]

/-- `charLe` is transitive. -/
theorem charLe_trans : ∀ {a b c : List Char},
    charLe a b = true → charLe b c = true → charLe a c = true := by
  intro a
  induction a with
  | nil => intro b c _ _; rfl
  | cons x as ih =>
    intro b c h1 h2
    cases b with
    | nil => simp [charLe] at h1
    | cons y bs =>
      cases c with
      | nil => simp [charLe] at h2
      | cons z cs =>
        rcases lt_trichotomy x y with hxy | hxy | hxy
        · rcases lt_trichotomy y z with hyz | hyz | hyz
          · simp [charLe, lt_trans hxy hyz]
          · subst hyz; simp [charLe, hxy]
          · simp [charLe, asymm hyz, hyz] at h2
        · subst hxy
          simp only [charLe, lt_irrefl, if_false] at h1
          rcases lt_trichotomy x z with hxz | hxz | hxz
          · simp [charLe, hxz]
          · subst hxz
            simp only [charLe, lt_irrefl, if_false] at h2 ⊢
            exact ih h1 h2
          · simp [charLe, asymm hxz, hxz] at h2
        · simp [charLe, asymm hxy, hxy] at h1

/-- `charLe` is antisymmetric. -/
theorem charLe_antisymm : ∀ {a b : List Char},
    charLe a b = true → charLe b a = true → a = b := by
  intro a
  induction a with
  | nil =>
    intro b _ h2
    cases b with
    | nil => rfl
    | cons y bs => simp [charLe] at h2
  | cons x as ih =>
    intro b h1 h2
    cases b with
    | nil => simp [charLe] at h1
    | cons y bs =>
      rcases lt_trichotomy x y with h | h | h
      · simp [charLe, asymm h, h] at h2
      · subst h
        simp only [charLe, lt_irrefl, if_false] at h1 h2
        rw [ih h1 h2]
      · simp [charLe, asymm h, h] at h1

instance strLeTotal : IsTotal String (fun a b => strLe a b = true) :=
  ⟨fun a b => charLe_total a.data b.data⟩

instance strLeTrans : IsTrans String (fun a b => strLe a b = true) :=
  ⟨fun _ _ _ h1 h2 => charLe_trans h1 h2⟩

instance strLeAntisymm : IsAntisymm String (fun a b => strLe a b = true) :=
  ⟨fun _ _ h1 h2 => String.ext (charLe_antisymm h1 h2)⟩

/-- `sortL` output is sorted. -/
theorem sortL_sorted (l : List String) :
    List.Sorted (fun a b => strLe a b = true) (sortL l) :=
  List.sorted_insertionSort _ l

/-- `sortL` permutes its input. -/
theorem sortL_perm (l : List String) : (sortL l).Perm l :=
  List.perm_insertionSort _ l

/-- Lists with the same elements sort identically: sorting is a canonical
form for set contents. -/
theorem sortL_congr {l₁ l₂ : List String} (h : l₁.Perm l₂) : sortL l₁ = sortL l₂ :=
  List.eq_of_perm_of_sorted ((sortL_perm l₁).trans (h.trans (sortL_perm l₂).symm))
    (sortL_sorted l₁) (sortL_sorted l₂)

/-- Re-adding an action already added is a no-op. -/
theorem addAction_idem (s : List String) (l : String) :
    addAction (addAction s l) l = addAction s l := by
  by_cases h : l ∈ s <;> simp [addAction, h]

/-- A set that has just received an element is non-empty. -/
theorem addAction_isEmpty (s : List String) (l : String) :
    (addAction s l).isEmpty = false := by
  by_cases h : l ∈ s
  · cases s with
    | nil => simp at h
    | cons x xs => simp [addAction, h]
  · simp [addAction, h]

/-- `merge` is idempotent on every index state. -/
theorem merge_idem (st : Idx) (a l : String) :
    merge (merge st a l) a l = merge st a l := by
  induction st with
  | nil => simp [merge, addAction]
  | cons kv rest ih =>
    by_cases h : kv.1 = a
    · by_cases he : kv.2.isEmpty
      · simp [merge, h, he, addAction]
      · simp [merge, h, he, addAction_isEmpty, addAction_idem]
    · simp [merge, h, ih]

/-- How `merge` changes the mapping: the merged identity's set receives the
label (an absent identity counting as the empty set), every other identity's
set is untouched. -/
theorem merge_keyLookup (st : Idx) (k v a : String) :
    keyLookup (merge st k v) a =
      if k = a then some (addAction ((keyLookup st a).getD []) v) else keyLookup st a := by
  induction st with
  | nil =>
    by_cases h : k = a <;> simp [merge, keyLookup, h, addAction]
  | cons kv rest ih =>
    by_cases h1 : kv.1 = k
    · by_cases he : kv.2.isEmpty
      · have he' : kv.2 = [] := List.isEmpty_iff.mp he
        by_cases h2 : k = a
        · simp [merge, keyLookup, h1, he, h2, he', addAction]
        · simp [merge, keyLookup, h1, he, h2]
      · by_cases h2 : k = a
        · simp [merge, keyLookup, h1, he, h2]
        · simp [merge, keyLookup, h1, he, h2]
    · by_cases h2 : kv.1 = a
      · have hka : ¬ k = a := fun h => h1 (h2.trans h.symm)
        have hak : ¬ a = k := fun hh => hka hh.symm
        simp [merge, keyLookup, h1, h2, hka, hak]
      · simp [merge, keyLookup, h1, h2, ih]

/-- `addAction` preserves contents-equality of sets. -/
theorem addAction_perm {s₁ s₂ : List String} (h : s₁.Perm s₂) (v : String) :
    (addAction s₁ v).Perm (addAction s₂ v) := by
  by_cases hv : v ∈ s₁
  · have hv2 : v ∈ s₂ := h.mem_iff.mp hv
    simpa [addAction, hv, hv2] using h
  · have hv2 : v ∉ s₂ := fun hh => hv (h.mem_iff.mpr hh)
    simpa [addAction, hv, hv2] using h.append_right [v]

/-- Two `addAction`s commute up to contents. -/
theorem addAction_swap (s : List String) (v w : String) :
    (addAction (addAction s v) w).Perm (addAction (addAction s w) v) := by
  by_cases hvw : v = w
  · subst hvw; exact List.Perm.refl _
  · by_cases hv : v ∈ s <;> by_cases hw : w ∈ s
    · simp [addAction, hv, hw]
    · simp [addAction, hv, hw, hvw]
    · simp [addAction, hv, hw, Ne.symm hvw]
    · have h1 : w ∉ s ++ [v] := by simp [hw, Ne.symm hvw]
      have h2 : v ∉ s ++ [w] := by simp [hv, hvw]
      simp only [addAction, hv, hw, if_neg, h1, h2, if_false]
      simp [h1, h2, List.append_assoc]
      exact List.Perm.append_left s (List.Perm.swap w v [])

/-- `optPerm` is reflexive. -/
theorem optPerm_refl (o : Option (List String)) : optPerm o o := by
  cases o with
  | none => trivial
  | some s => exact List.Perm.refl s

/-- `optPerm` is transitive. -/
theorem optPerm_trans {o₁ o₂ o₃ : Option (List String)}
    (h1 : optPerm o₁ o₂) (h2 : optPerm o₂ o₃) : optPerm o₁ o₃ := by
  cases o₁ <;> cases o₂ <;> cases o₃ <;> simp [optPerm] at *
  exact h1.trans h2

/-- `merge` preserves contents-equality of indexes. -/
theorem lookPerm_merge {st₁ st₂ : Idx} (h : lookPerm st₁ st₂) (k v : String) :
    lookPerm (merge st₁ k v) (merge st₂ k v) := by
  intro a
  rw [merge_keyLookup, merge_keyLookup]
  by_cases hk : k = a
  · simp only [hk, if_pos rfl]
    have ha := h a
    cases h1 : keyLookup st₁ a with
    | none =>
      cases h2 : keyLookup st₂ a with
      | none => exact List.Perm.refl _
      | some t => rw [h1, h2] at ha; exact absurd ha (by simp [optPerm])
    | some s =>
      cases h2 : keyLookup st₂ a with
      | none => rw [h1, h2] at ha; exact absurd ha (by simp [optPerm])
      | some t =>
        rw [h1, h2] at ha
        exact addAction_perm ha v
  · simp only [hk, if_false]
    exact h a

/-- Folding the same batch over contents-equal indexes keeps them
contents-equal. -/
theorem lookPerm_applyAll (l : List (String × String)) {st₁ st₂ : Idx}
    (h : lookPerm st₁ st₂) : lookPerm (applyAll st₁ l) (applyAll st₂ l) := by
  induction l generalizing st₁ st₂ with
  | nil => exact h
  | cons p t ih => exact ih (lookPerm_merge h p.1 p.2)

/-- Merging the same multiset of pairs in two interleavings produces
contents-equal indexes, from any starting state. -/
theorem perm_applyAll {l₁ l₂ : List (String × String)} (h : l₁.Perm l₂) :
    ∀ st, lookPerm (applyAll st l₁) (applyAll st l₂) := by
  induction h with
  | nil => intro st a; exact optPerm_refl _
  | cons x h ih => intro st; exact ih (merge st x.1 x.2)
  | swap x y l =>
    intro st
    show lookPerm (applyAll (merge (merge st y.1 y.2) x.1 x.2) l)
      (applyAll (merge (merge st x.1 x.2) y.1 y.2) l)
    apply lookPerm_applyAll
    intro a
    rw [merge_keyLookup, merge_keyLookup, merge_keyLookup, merge_keyLookup]
    by_cases hx : x.1 = a <;> by_cases hy : y.1 = a
    · simp only [hx, hy, if_pos rfl, Option.getD_some]
      exact addAction_swap _ y.2 x.2
    · simp only [hx, hy, if_pos rfl, if_false]
      exact optPerm_refl _
    · simp only [hx, hy, if_pos rfl, if_false]
      exact optPerm_refl _
    · simp only [hx, hy, if_false]
      exact optPerm_refl _
  | trans h₁ h₂ ih₁ ih₂ => intro st a; exact optPerm_trans (ih₁ st a) (ih₂ st a)

/-- A successful subscription implies a positive membership test (`k in j`)
on the same value. -/
theorem pyIndex_inTest {r : Json} {k : String} {v : Json}
    (h : pyIndex r k = .ok v) : pyInTest k r = .ok true := by
  cases r with
  | obj fields =>
    simp only [pyInTest, pyIndex] at *
    cases hf : fields.find? (fun kv => kv.1 = k) with
    | none => rw [hf] at h; exact Except.noConfusion h
    | some kv =>
      have hm := List.mem_of_find?_eq_some hf
      have hp := List.find?_some hf
      simp only [Except.ok.injEq]
      rw [List.any_eq_true]
      exact ⟨kv, hm, hp⟩
  | null => exact Except.noConfusion h
  | bool b => exact Except.noConfusion h
  | num n => exact Except.noConfusion h
  | str s => exact Except.noConfusion h
  | arr xs => exact Except.noConfusion h

/-- `splitOnChar` always yields at least one segment. -/
theorem splitOnChar_ne_nil (c : Char) (l : List Char) : splitOnChar c l ≠ [] := by
  induction l with
  | nil => simp [splitOnChar]
  | cons x xs ih =>
    simp only [splitOnChar]
    cases h : splitOnChar c xs with
    | nil => exact absurd h ih
    | cons hh tt => by_cases hx : x = c <;> simp [hx]

/-- The first segment of `splitOnChar` is the longest separator-free prefix:
Python's `s.split(c)[0]` is the substring before the first `c`. -/
theorem splitOnChar_headD (c : Char) (l : List Char) :
    (splitOnChar c l).headD [] = l.takeWhile (fun x => x != c) := by
  induction l with
  | nil => rfl
  | cons x xs ih =>
    cases h : splitOnChar c xs with
    | nil => exact absurd h (splitOnChar_ne_nil c xs)
    | cons hh tt =>
      rw [h] at ih
      by_cases hx : x = c
      · subst hx
        simp [splitOnChar, h, List.takeWhile]
      · have hb : (x != c) = true := by simp [hx]
        simp [splitOnChar, h, hx, List.takeWhile, hb, ← ih]

/-- String-level version of `splitOnChar_headD`. -/
theorem pySplit_headD (es : String) (c : Char) :
    (pySplit es c).headD "" = ⟨es.data.takeWhile (fun x => x != c)⟩ := by
  unfold pySplit
  cases h : splitOnChar c es.data with
  | nil => exact absurd h (splitOnChar_ne_nil _ _)
  | cons hh tt =>
    have hd := splitOnChar_headD c es.data
    rw [h] at hd
    simp only [List.headD_cons] at hd
    simp [hd]

/-- Membership after `addAction`. -/
theorem mem_addAction {x v : String} {s : List String} :
    x ∈ addAction s v ↔ x ∈ s ∨ x = v := by
  by_cases h : v ∈ s
  · simp only [addAction, if_pos h]
    exact ⟨Or.inl, fun hx => hx.elim id (fun e => e ▸ h)⟩
  · simp [addAction, h]

/-- A built action label is never the empty string (it contains `" - "`). -/
theorem append_dash_ne (x y : String) : x ++ " - " ++ y ≠ "" := by
  intro h
  have hlen := congrArg String.length h
  rw [String.length_append, String.length_append] at hlen
  have h3 : (" - " : String).length = 3 := rfl
  have h0 : ("" : String).length = 0 := rfl
  omega

/-- Labels produced by source line 43 are non-empty. -/
theorem pyActionOf_ok_ne {r : Json} {s : String} (h : pyActionOf r = .ok s) : s ≠ "" := by
  unfold pyActionOf at h
  split at h
  · exact Except.noConfusion h
  · split at h
    · split at h
      · exact Except.noConfusion h
      · split at h
        · rw [Except.ok.injEq] at h
          exact h ▸ append_dash_ne _ _
        · exact Except.noConfusion h
    · exact Except.noConfusion h

/-- `actOf` only returns non-empty labels. -/
theorem actOf_ok_ne {r : Json} {l : String} (h : actOf r = some l) : l ≠ "" := by
  unfold actOf at h
  cases hA : pyActionOf r with
  | error e => rw [hA] at h; exact Option.noConfusion h
  | ok s =>
    rw [hA] at h
    rw [Option.some.injEq] at h
    exact h ▸ pyActionOf_ok_ne hA

/-- Each record either leaves the index unchanged (guard false, or an
exception raised before the merge) or merges the normalized arn of its
`userIdentity.arn` field with its action label. -/
theorem processRecord_cases (st : Idx) (r : Json) :
    (processRecord st r).1 = st ∨
      ∃ a l, arnOf r = some a ∧ actOf r = some l ∧
        processRecord st r = (merge st (fix_arn a) l, none) := by
  cases h1 : pyInTest "userIdentity" r with
  | error e => left; simp [processRecord, h1]
  | ok b =>
    cases b with
    | false => left; simp [processRecord, h1]
    | true =>
      cases h2 : pyIndex r "userIdentity" with
      | error e => left; simp [processRecord, h1, h2]
      | ok ui =>
        cases h3 : pyInTest "arn" ui with
        | error e => left; simp [processRecord, h1, h2, h3]
        | ok b2 =>
          cases b2 with
          | false => left; simp [processRecord, h1, h2, h3]
          | true =>
            cases h4 : pyIndex ui "arn" with
            | error e => left; simp [processRecord, h1, h2, h3, h4]
            | ok arnV =>
              cases h5 : fix_arnJson arnV with
              | error e => left; simp [processRecord, h1, h2, h3, h4, h5]
              | ok arn =>
                cases h6 : pyActionOf r with
                | error e => left; simp [processRecord, h1, h2, h3, h4, h5, h6]
                | ok act =>
                  right
                  cases arnV <;> simp only [fix_arnJson] at h5 <;>
                    try exact Except.noConfusion h5
                  rename_i s
                  rw [Except.ok.injEq] at h5
                  refine ⟨s, act, ?_, ?_, ?_⟩
                  · simp [arnOf, h2, h4]
                  · simp [actOf, h6]
                  · simp [processRecord, fix_arnJson, h1, h2, h3, h4, h6]

/-- `merge` preserves the index invariant when the merged key is justified
and the merged label non-empty. -/
theorem merge_IdxOK {seen : List Json} {k l : String} :
    ∀ st : Idx, IdxOK st seen → EntryJustified seen k → l ≠ "" →
      IdxOK (merge st k l) seen := by
  intro st
  induction st with
  | nil =>
    intro _ hj hl kv hkv
    simp only [merge, List.mem_singleton] at hkv
    subst hkv
    exact ⟨hj, by simpa using hl⟩
  | cons kv0 rest ih =>
    intro h hj hl kv hkv
    have hrest : IdxOK rest seen := fun kv h' => h kv (List.mem_cons_of_mem _ h')
    by_cases h1 : kv0.1 = k
    · by_cases he : kv0.2.isEmpty
      · simp only [merge, if_pos h1, if_pos he, List.mem_cons] at hkv
        rcases hkv with hkv | hkv
        · subst hkv
          exact ⟨h1 ▸ hj, by simpa using hl⟩
        · exact h kv (List.mem_cons_of_mem _ hkv)
      · simp only [merge, if_pos h1, if_neg he, List.mem_cons] at hkv
        rcases hkv with hkv | hkv
        · subst hkv
          refine ⟨(h kv0 (List.mem_cons_self _ _)).1, ?_⟩
          intro x hx
          rcases mem_addAction.mp hx with hx | hx
          · exact (h kv0 (List.mem_cons_self _ _)).2 x hx
          · exact hx ▸ hl
        · exact h kv (List.mem_cons_of_mem _ hkv)
    · simp only [merge, if_neg h1, List.mem_cons] at hkv
      rcases hkv with hkv | hkv
      · exact hkv ▸ h kv0 (List.mem_cons_self _ _)
      · exact ih hrest hj hl kv hkv

/-- One record step preserves the index invariant. -/
theorem processRecord_IdxOK {st : Idx} {seen : List Json} {r : Json}
    (h : IdxOK st seen) (hr : r ∈ seen) : IdxOK (processRecord st r).1 seen := by
  rcases processRecord_cases st r with hc | ⟨a, l, ha, hl, he⟩
  · rw [hc]; exact h
  · rw [he]
    exact merge_IdxOK st h ⟨r, hr, by rw [ha]; rfl⟩ (actOf_ok_ne hl)

/-- The record loop preserves the index invariant for any superset of the
records it touches. -/
theorem processRecords_IdxOK {seenT : List Json} :
    ∀ (rs : List Json) (st : Idx), IdxOK st seenT → (∀ r ∈ rs, r ∈ seenT) →
      IdxOK (processRecords st rs).1 seenT := by
  intro rs
  induction rs with
  | nil => intro st h _; exact h
  | cons r rest ih =>
    intro st h hsub
    have hstep : IdxOK (processRecord st r).1 seenT :=
      processRecord_IdxOK h (hsub r (List.mem_cons_self _ _))
    unfold processRecords
    cases hpr : processRecord st r with
    | mk st' oe =>
      rw [hpr] at hstep
      cases oe with
      | none => exact ih st' hstep (fun r' hr' => hsub r' (List.mem_cons_of_mem _ hr'))
      | some e => exact hstep

/-- Python `pat in s` is always true for the empty pattern. -/
theorem pyContains_empty (s : String) : pyContains s "" = true := by
  unfold pyContains
  cases hd : s.data with
  | nil => rfl
  | cons c r => simp [subIn, List.isPrefixOf]

/-- Claim C1 (code bug): per-object errors do escape the coordinator.  On a
run with a first object whose fetch fails and a second valid object, every
submitted task still runs (the index ends up containing alice's action), yet
`main`'s collection loop (`future.result()`, line 95) re-raises the
`FetchError` to the caller instead of recording it, contradicting the spec's
propagation policy that only a listing failure propagates. -/
theorem C1_code_raises :
    collectResults [⟨"logs/a.json.gz", none⟩, ⟨"logs/b.json.gz", some (.json docAlice)⟩]
        = .error .fetchError ∧
    (runAll [⟨"logs/a.json.gz", none⟩, ⟨"logs/b.json.gz", some (.json docAlice)⟩]).1
        = [("arn:aws:iam::1:user/alice", ["s3 - GetObject"])] :=
  ⟨rfl, rfl⟩

/-- Claim C2 (counterexample): the claim says only the leading sts prefix and
the assumed-role *marker* are replaced, but `str.replace` replaces every
occurrence, so a role whose own name contains `assumed-role` is rewritten
inside the role name as well. -/
theorem C2_counterexample :
    fix_arn "arn:aws:sts::123:assumed-role/my-assumed-role/sess"
        = "arn:aws:iam::123:role/my-role" ∧
    fix_arn_claim "arn:aws:sts::123:assumed-role/my-assumed-role/sess"
        = "arn:aws:iam::123:role/my-assumed-role" ∧
    fix_arn "arn:aws:sts::123:assumed-role/my-assumed-role/sess"
        ≠ fix_arn_claim "arn:aws:sts::123:assumed-role/my-assumed-role/sess" :=
  ⟨by decide, by decide, by decide⟩

/-- Claim C2 (amended): `fix_arn` is total and deterministic; an input
starting with `arn:aws:sts::` has **every occurrence** of `arn:aws:sts::`
replaced by `arn:aws:iam::` and **every occurrence** of `assumed-role`
replaced by `role`, and the path truncated to the first two slash-separated
segments (the spec's example maps as stated); every other input is returned
unchanged. -/
theorem C2_thm : ∀ arn : String,
    (pyStartsWith arn "arn:aws:sts::" = false → fix_arn arn = arn) ∧
    (pyStartsWith arn "arn:aws:sts::" = true →
      fix_arn arn = pyJoin "/"
        (((pySplit (pyReplace (pyReplace arn "arn:aws:sts::" "arn:aws:iam::")
          "assumed-role" "role") '/')).take 2)) ∧
    fix_arn "arn:aws:sts::111122223333:assumed-role/Deploy/sess-1"
        = "arn:aws:iam::111122223333:role/Deploy" ∧
    fix_arn "arn:aws:iam::1:user/alice" = "arn:aws:iam::1:user/alice" := by
  intro arn
  refine ⟨?_, ?_, by decide, by decide⟩
  · intro h; simp [fix_arn, h]
  · intro h; simp [fix_arn, h]

/-- Witness for C2: both branches applied at concrete inputs. -/
theorem C2_witness :
    fix_arn "arn:aws:iam::1:user/alice" = "arn:aws:iam::1:user/alice" ∧
    fix_arn "arn:aws:sts::2:assumed-role/Ops/s1" = pyJoin "/"
      (((pySplit (pyReplace (pyReplace "arn:aws:sts::2:assumed-role/Ops/s1"
        "arn:aws:sts::" "arn:aws:iam::") "assumed-role" "role") '/')).take 2) :=
  ⟨(C2_thm "arn:aws:iam::1:user/alice").1 (by decide),
   (C2_thm "arn:aws:sts::2:assumed-role/Ops/s1").2.1 (by decide)⟩

/-- Claim C3 (counterexample): the source tests `".json.gz" not in log_key`,
a substring test, not a suffix test: the key `logs/x.json.gz.bak` does not
end in `.json.gz` (so the claim says it is skipped) yet the code proceeds to
fetch it. -/
theorem C3_counterexample :
    skipKey "logs/x.json.gz.bak" = false ∧
    skipClaim "logs/x.json.gz.bak" = true ∧
    process_log_object [] ⟨"logs/x.json.gz.bak", none⟩ = ([], some .fetchError) :=
  ⟨by decide, by decide, by decide⟩

/-- Claim C3 (amended): an object is skipped without any fetch attempt iff
its key does not *contain* `.json.gz` or contains `digest`
case-insensitively; the spec's three example keys behave as stated. -/
theorem C3_thm : ∀ (st : Idx) (o : S3Obj),
    skipKey o.key = (!(pyContains o.key ".json.gz") || pyContains (pyLower o.key) "digest") ∧
    (skipKey o.key = true → process_log_object st o = (st, none)) ∧
    (skipKey o.key = false → o.content = none →
      process_log_object st o = (st, some .fetchError)) ∧
    skipKey "logs/CloudTrail-Digest-2024.json.gz" = true ∧
    skipKey "logs/archive.json.gz" = false ∧
    skipKey "logs/data.txt" = true := by
  intro st o
  refine ⟨rfl, ?_, ?_, by decide, by decide, by decide⟩
  · intro h; simp [process_log_object, h]
  · intro h hc; simp [process_log_object, h, hc]

/-- Witness for C3: a `.txt` key is skipped with no fetch, a digest key is
skipped, and an eligible key reaches the fetch. -/
theorem C3_witness :
    process_log_object [] ⟨"logs/data.txt", none⟩ = ([], none) ∧
    process_log_object [] ⟨"logs/CloudTrail-Digest-2024.json.gz", none⟩ = ([], none) ∧
    process_log_object [] ⟨"logs/archive.json.gz", none⟩ = ([], some .fetchError) :=
  ⟨(C3_thm [] ⟨"logs/data.txt", none⟩).2.1 (by decide),
   (C3_thm [] ⟨"logs/CloudTrail-Digest-2024.json.gz", none⟩).2.1 (by decide),
   (C3_thm [] ⟨"logs/archive.json.gz", none⟩).2.2.1 (by decide) rfl⟩

/-- Claim C4 (counterexample): the guard on line 41 only checks *presence* of
`userIdentity.arn`: a record whose arn is the empty string still yields a
pair (and is merged under the identity `""`), whereas the claim demands the
arn be non-empty. -/
theorem C4_counterexample :
    processRecord [] recEmptyArn = ([("", ["s3 - GetObject"])], none) ∧
    processRecord [] recEmptyArn ≠ ([], none) :=
  ⟨by decide, by decide⟩

/-- Claim C4 (amended): a record with a (possibly empty) string
`userIdentity.arn` and string `eventSource`/`eventName` fields yields exactly
one pair, whose identity is the normalized arn and whose label is the
substring of `eventSource` before the first `.` concatenated with `" - "`
and `eventName`; a record whose membership guard fails (no `userIdentity`
key, or no `arn` inside it) yields nothing and leaves the index unchanged. -/
theorem C4_thm :
    (∀ (st : Idx) (fields uiF : List (String × Json)) (a es en : String),
      pyIndex (.obj fields) "userIdentity" = .ok (.obj uiF) →
      pyIndex (.obj uiF) "arn" = .ok (.str a) →
      pyIndex (.obj fields) "eventSource" = .ok (.str es) →
      pyIndex (.obj fields) "eventName" = .ok (.str en) →
      processRecord st (.obj fields)
        = (merge st (fix_arn a) ((pySplit es '.').headD "" ++ " - " ++ en), none)) ∧
    (∀ (st : Idx) (r : Json), pyInTest "userIdentity" r = .ok false →
      processRecord st r = (st, none)) ∧
    (∀ (st : Idx) (r ui : Json), pyIndex r "userIdentity" = .ok ui →
      pyInTest "arn" ui = .ok false → processRecord st r = (st, none)) ∧
    (∀ es : String, (pySplit es '.').headD ""
      = ⟨es.data.takeWhile (fun c => c != '.')⟩) := by
  refine ⟨?_, ?_, ?_, fun es => pySplit_headD es '.'⟩
  · intro st fields uiF a es en h1 h2 h3 h4
    have hu := pyIndex_inTest h1
    have ha := pyIndex_inTest h2
    simp [processRecord, hu, h1, ha, h2, fix_arnJson, pyActionOf, h3, h4]
  · intro st r h
    simp [processRecord, h]
  · intro st r ui h1 h2
    have hu := pyIndex_inTest h1
    simp [processRecord, hu, h1, h2]

/-- Witness for C4: the spec's extraction example record. -/
theorem C4_witness :
    processRecord [] recAlice
      = (merge [] (fix_arn "arn:aws:iam::1:user/alice")
          ((pySplit "s3.amazonaws.com" '.').headD "" ++ " - " ++ "GetObject"), none) :=
  C4_thm.1 [] [("eventSource", Json.str "s3.amazonaws.com"),
    ("eventName", Json.str "GetObject"),
    ("userIdentity", Json.obj [("arn", Json.str "arn:aws:iam::1:user/alice")])]
    [("arn", Json.str "arn:aws:iam::1:user/alice")]
    "arn:aws:iam::1:user/alice" "s3.amazonaws.com" "GetObject" rfl rfl rfl rfl

/-- Claim C5 (counterexample): a document that is valid JSON but not a JSON
*object* — here the JSON array `[]` — lacks a `Records` key, yet the
extractor does not yield zero pairs: `[].get` raises `AttributeError`. -/
theorem C5_counterexample :
    extract_actions [] (.json (.arr [])) = ([], some .attributeError) ∧
    extract_actions [] (.json (.arr [])) ≠ ([], none) :=
  ⟨by decide, by decide⟩

/-- Claim C5 (amended): a document that is not valid JSON fails with
`ParseError`; a document that is a valid JSON *object* without a `Records`
key yields zero pairs and does not fail. -/
theorem C5_thm :
    (∀ st : Idx, extract_actions st .malformed = (st, some .parseError)) ∧
    (∀ (st : Idx) (fields : List (String × Json)),
      fields.find? (fun kv => kv.1 = "Records") = none →
      extract_actions st (.json (.obj fields)) = (st, none)) := by
  constructor
  · intro st; rfl
  · intro st fields h
    simp [extract_actions, pyGetRecords, h, pyIter, processRecords]

/-- Witness for C5: an object document with no `Records` key yields nothing
and leaves a non-trivial index unchanged. -/
theorem C5_witness :
    extract_actions [("k", ["v"])] (.json (.obj [("x", Json.null)]))
      = ([("k", ["v"])], none) :=
  C5_thm.2 [("k", ["v"])] [("x", Json.null)] rfl

/-- Claim C6 (confirmed): `merge` is idempotent on every index state; merging
a new identity creates a singleton set, and merging an existing identity adds
the label to its existing set (for a present-but-empty set this is the same
singleton assignment the source's falsiness test produces, and
`addAction [] l = [l]`). -/
theorem C6_thm : ∀ (st : Idx) (a l : String),
    merge (merge st a l) a l = merge st a l ∧
    (keyLookup st a = none → keyLookup (merge st a l) a = some [l]) ∧
    (∀ s, keyLookup st a = some s → keyLookup (merge st a l) a = some (addAction s l)) := by
  intro st a l
  refine ⟨merge_idem st a l, ?_, ?_⟩
  · intro h
    rw [merge_keyLookup]
    simp [h, addAction]
  · intro s h
    rw [merge_keyLookup]
    simp [h]

/-- Witness for C6 at a concrete one-entry index. -/
theorem C6_witness :
    merge (merge [("u", ["x"])] "u" "y") "u" "y" = merge [("u", ["x"])] "u" "y" ∧
    keyLookup (merge [("u", ["x"])] "u" "y") "u" = some (addAction ["x"] "y") ∧
    keyLookup (merge [("u", ["x"])] "v" "y") "v" = some ["y"] :=
  ⟨(C6_thm [("u", ["x"])] "u" "y").1,
   (C6_thm [("u", ["x"])] "u" "y").2.2 ["x"] (by decide),
   (C6_thm (merge [("u", ["x"])] "u" "x") "v" "y").2.1 (by decide)⟩

/-- Claim C7 (confirmed): folding `merge` over any two interleavings of the
same multiset of (identity, label) pairs, starting from the empty index,
yields indexes with the identical identity-to-set-of-labels mapping (sets
compared by their canonical sorted enumeration). -/
theorem C7_thm : ∀ (l₁ l₂ : List (String × String)), l₁.Perm l₂ →
    ∀ a, (keyLookup (applyAll [] l₁) a).map sortL
      = (keyLookup (applyAll [] l₂) a).map sortL := by
  intro l₁ l₂ h a
  have hp := perm_applyAll h [] a
  cases h1 : keyLookup (applyAll [] l₁) a with
  | none =>
    cases h2 : keyLookup (applyAll [] l₂) a with
    | none => rfl
    | some t => rw [h1, h2] at hp; exact absurd hp (by simp [optPerm])
  | some s =>
    cases h2 : keyLookup (applyAll [] l₂) a with
    | none => rw [h1, h2] at hp; exact absurd hp (by simp [optPerm])
    | some t =>
      rw [h1, h2] at hp
      show some (sortL s) = some (sortL t)
      exact congrArg some (sortL_congr hp)

/-- Witness for C7: two interleavings of three merges. -/
theorem C7_witness :
    (keyLookup (applyAll [] [("u", "x"), ("v", "y"), ("u", "z")]) "u").map sortL
      = (keyLookup (applyAll [] [("u", "z"), ("v", "y"), ("u", "x")]) "u").map sortL :=
  C7_thm [("u", "x"), ("v", "y"), ("u", "z")] [("u", "z"), ("v", "y"), ("u", "x")]
    (by decide) "u"

/-- Claim C8 (counterexample): the run that processes a record whose
`userIdentity.arn` is present but empty produces a reachable index state with
an entry (identity `""`) not justified by any record with a non-empty arn. -/
theorem C8_counterexample :
    ¬ IdxOKne (processRecords [] [recEmptyArn]).1 [recEmptyArn] := by
  unfold IdxOKne EntryJustifiedNE
  decide

/-- Claim C8 (amended): in every index state reachable by the record loop
from the empty index, every entry is justified by a processed record whose
`userIdentity.arn` field is present (possibly empty) and normalizes to the
entry's key, and every stored action label is non-empty; moreover each record
step either leaves the index unchanged (in particular a record missing
`userIdentity.arn` is never merged) or merges exactly its normalized arn and
label. -/
theorem C8_thm :
    (∀ rs : List Json, IdxOK (processRecords [] rs).1 rs) ∧
    (∀ (st : Idx) (r : Json), (processRecord st r).1 = st ∨
      ∃ a l, arnOf r = some a ∧ actOf r = some l ∧
        processRecord st r = (merge st (fix_arn a) l, none)) := by
  constructor
  · intro rs
    exact processRecords_IdxOK rs []
      (fun kv hkv => absurd hkv (List.not_mem_nil kv)) (fun r hr => hr)
  · exact processRecord_cases

/-- Witness for C8: the invariant instantiated at the alice run's single
entry. -/
theorem C8_witness :
    EntryJustified [recAlice] "arn:aws:iam::1:user/alice" ∧
    ∀ l ∈ (["s3 - GetObject"] : List String), l ≠ "" :=
  C8_thm.1 [recAlice] ("arn:aws:iam::1:user/alice", ["s3 - GetObject"]) (by decide)

/-- Claim C9 (confirmed): the report stage equals, for every index and every
optional filter, the pure function that keeps exactly the entries whose
identity contains the filter substring (all entries when the filter is
absent; the falsy empty-string filter coincides with keeping everything,
since `""` is a substring of every identity) and sorts each retained action
set; the spec's filtering example evaluates as stated. -/
theorem C9_thm : ∀ (idx : Idx) (flt : Option String),
    report idx flt
      = (idx.filter (fun kv =>
          match flt with
          | none => true
          | some t => pyContains kv.1 t)).map (fun kv => (kv.1, sortL kv.2)) ∧
    report [("A", ["y", "x"]), ("B", ["z"])] (some "A") = [("A", ["x", "y"])] ∧
    report [("A", ["y", "x"]), ("B", ["z"])] none = [("A", ["x", "y"]), ("B", ["z"])] := by
  intro idx flt
  refine ⟨?_, by decide, by decide⟩
  cases flt with
  | none => simp [report]
  | some t =>
    by_cases ht : t = ""
    · subst ht
      simp [report, pyContains_empty]
    · simp [report, ht]

/-- Claim C10 (confirmed): a record containing a string `userIdentity.arn`
but lacking `eventSource` (or having a string `eventSource` but lacking
`eventName`) is not silently skipped: the unconditional subscription on
line 43 raises `KeyError`, which aborts extraction of the containing
document — the remaining records of that document are never processed. -/
theorem C10_thm :
    (∀ (st : Idx) (fields uiF : List (String × Json)) (a : String) (rest : List Json),
      pyIndex (.obj fields) "userIdentity" = .ok (.obj uiF) →
      pyIndex (.obj uiF) "arn" = .ok (.str a) →
      pyIndex (.obj fields) "eventSource" = .error .keyError →
      processRecord st (.obj fields) = (st, some .keyError) ∧
      processRecords st (.obj fields :: rest) = (st, some .keyError)) ∧
    (∀ (st : Idx) (fields uiF : List (String × Json)) (a es : String) (rest : List Json),
      pyIndex (.obj fields) "userIdentity" = .ok (.obj uiF) →
      pyIndex (.obj uiF) "arn" = .ok (.str a) →
      pyIndex (.obj fields) "eventSource" = .ok (.str es) →
      pyIndex (.obj fields) "eventName" = .error .keyError →
      processRecord st (.obj fields) = (st, some .keyError) ∧
      processRecords st (.obj fields :: rest) = (st, some .keyError)) := by
  constructor
  · intro st fields uiF a rest h1 h2 h3
    have hu := pyIndex_inTest h1
    have ha := pyIndex_inTest h2
    have hp : processRecord st (.obj fields) = (st, some .keyError) := by
      simp [processRecord, hu, h1, ha, h2, fix_arnJson, pyActionOf, h3]
    exact ⟨hp, by simp [processRecords, hp]⟩
  · intro st fields uiF a es rest h1 h2 h3 h4
    have hu := pyIndex_inTest h1
    have ha := pyIndex_inTest h2
    have hp : processRecord st (.obj fields) = (st, some .keyError) := by
      simp [processRecord, hu, h1, ha, h2, fix_arnJson, pyActionOf, h3, h4]
    exact ⟨hp, by simp [processRecords, hp]⟩

/-- Witness for C10: a record with an arn but no `eventSource`. -/
theorem C10_witness :
    processRecord [] recNoSource = ([], some PyErr.keyError) ∧
    processRecords [] [recNoSource] = ([], some PyErr.keyError) := by
  have h := C10_thm.1 [] [("eventName", Json.str "GetObject"),
    ("userIdentity", Json.obj [("arn", Json.str "arn:aws:iam::1:user/alice")])]
    [("arn", Json.str "arn:aws:iam::1:user/alice")] "arn:aws:iam::1:user/alice" [] rfl rfl rfl
  exact ⟨h.1, h.2⟩

